import Mathlib

/-!
Verification of the star-schema materialization pipeline (`star_schema.ipynb`).

The pipeline is shallowly embedded: a Spark dataframe row is an association
list of column name to value, a dataframe is a list of rows, and every
operation used by the notebook (select with cast, distinct, the id column,
the left-outer join of the key-resolution loop, the final ordered select) is
an executable Lean function translated from the notebook cells.  The Postgres
DDL executed for the fact table (CREATE TABLE IF NOT EXISTS plus one ALTER
TABLE adding the foreign-key constraints, run inside a single transaction
that is rolled back on failure) is embedded as a small state machine on the
set of table names and constraint names.
-/

set_option maxHeartbeats 1000000

namespace StarSchema

/-- A cell value of the dataset: SQL null, an integer, or a string. -/
inductive Value where
  | VNull : Value
  | VInt : Int → Value
  | VStr : String → Value
deriving DecidableEq, Repr

open Value

/-- A dataframe row: an association list from column name to value. -/
abbrev Row := List (String × Value)

/-- Column lookup in a row; a missing column reads as null. -/
def lookupV (r : Row) (c : String) : Value :=
  match r.find? (fun kv => kv.1 == c) with
  | some kv => kv.2
  | none => VNull

/-- One declared field of a dimension: source column name and Spark type. -/
structure DimField where
  field : String
  type : String
deriving DecidableEq, Repr

/-- `INTEGER_DIMENSIONS` from the notebook: the single-column flag/category
dimensions. -/
def INTEGER_DIMENSIONS : List String :=
  ["TP_DEPENDENCIA", "TP_LOCALIZACAO", "IN_AGUA_POTAVEL", "IN_ENERGIA_INEXISTENTE",
   "IN_ESGOTO_INEXISTENTE", "IN_BANHEIRO", "IN_BIBLIOTECA", "IN_REFEITORIO",
   "IN_COMPUTADOR", "IN_INTERNET", "IN_EQUIP_NENHUM"]

/-- ASCII uppercase of one character (Python `str.upper` on the ASCII range,
which covers every configured column name). -/
def upperChar (c : Char) : Char :=
  if 'a' ≤ c ∧ c ≤ 'z' then Char.ofNat (c.toNat - 32) else c

/-- ASCII uppercase of a string. -/
def upperString (s : String) : String :=
  String.mk (s.data.map upperChar)

/-- The digits of a decimal natural-number literal, accumulated left to right;
`none` when a non-digit appears. -/
def parseNatAux : List Char → Nat → Option Nat
  | [], acc => some acc
  | c :: cs, acc =>
    if '0' ≤ c ∧ c ≤ '9' then parseNatAux cs (acc * 10 + (c.toNat - 48)) else none

/-- Parse a decimal integer literal (optional leading minus sign), as Spark's
string-to-integer cast does for the values this dataset holds; anything else
fails (and the cast yields null). -/
def parseIntStr (s : String) : Option Int :=
  match s.data with
  | [] => none
  | ['-'] => none
  | '-' :: cs => (parseNatAux cs 0).map (fun n => -(Int.ofNat n))
  | cs => (parseNatAux cs 0).map (fun n => Int.ofNat n)

/-- The hand-written part of `DIMENSION_TABLES_CONFIG` (the `DIM_LOCAL` spec). -/
def handWrittenConfig : List (String × List DimField) :=
  [("DIM_LOCAL",
    [⟨"NO_UF", "string"⟩, ⟨"SG_UF", "string"⟩, ⟨"CO_UF", "string"⟩,
     ⟨"NO_MUNICIPIO", "string"⟩, ⟨"CO_MUNICIPIO", "string"⟩])]

/-- The dictionary comprehension expanding one flag column into a
single-field dimension spec named `DIM_` plus the uppercased column name. -/
def synthDim (c : String) : String × List DimField :=
  ("DIM_" ++ upperString c, [⟨c, "integer"⟩])

/-- Python `dict.update` semantics for one key/value pair: replace the value
in place when the key exists, append otherwise. -/
def insertOrReplace {α : Type} (base : List (String × α)) (kv : String × α) :
    List (String × α) :=
  if base.any (fun p => p.1 == kv.1) then
    base.map (fun p => if p.1 == kv.1 then kv else p)
  else
    base ++ [kv]

/-- Python `dict.update` over a list of new entries. -/
def dictUpdate {α : Type} (base upd : List (String × α)) : List (String × α) :=
  upd.foldl insertOrReplace base

/-- `DIMENSION_TABLES_CONFIG` after the `.update(...)` call: the merged
dimension spec registry, in insertion order. -/
def DIMENSION_TABLES_CONFIG : List (String × List DimField) :=
  dictUpdate handWrittenConfig (INTEGER_DIMENSIONS.map synthDim)

/-- The declared field (natural-key) column names of a dimension spec. -/
def fieldNames (spec : String × List DimField) : List String :=
  spec.2.map (fun fl => fl.field)

/-- The foreign-key column name for a dimension table: `ID_` + table name. -/
def fkName (spec : String × List DimField) : String :=
  "ID_" ++ spec.1

/-- `FACT_TABLE_NAME` from the notebook. -/
def FACT_TABLE_NAME : String := "FACT_CENSO_ESCOLAR"

/-- `FACT_COLUMNS` from the notebook: the measure columns of the fact table. -/
def FACT_COLUMNS : List String :=
  ["QT_DOC_BAS", "QT_DOC_INF", "QT_DOC_FUND", "QT_DOC_MED",
   "QT_MAT_BAS", "QT_MAT_INF", "QT_MAT_FUND", "QT_MAT_MED",
   "QT_MAT_BAS_ND", "QT_MAT_BAS_BRANCA", "QT_MAT_BAS_PRETA", "QT_MAT_BAS_PARDA",
   "QT_MAT_BAS_AMARELA", "QT_MAT_BAS_INDIGENA", "NU_ANO_CENSO"]

/-- `DIMENSION_ID_CONFIG`: table name to list of its natural-key columns. -/
def DIMENSION_ID_CONFIG : List (String × List String) :=
  DIMENSION_TABLES_CONFIG.map (fun e => (e.1, fieldNames e))

/-- `FACT_TABLE_ALL_COLUMNS_ORDERED`: measures first, then `ID_` + dimension
table name per dimension, in registry order. -/
def FACT_TABLE_ALL_COLUMNS_ORDERED : List String :=
  FACT_COLUMNS ++ DIMENSION_ID_CONFIG.map (fun e => "ID_" ++ e.1)

/-- The decimal digits of `n`, most significant first, with explicit fuel so
that the definition is structural. -/
def natToDecAux : Nat → Nat → List Char
  | 0, _ => []
  | fuel + 1, n =>
    if n < 10 then [Nat.digitChar n]
    else natToDecAux fuel (n / 10) ++ [Nat.digitChar (n % 10)]

/-- The decimal digits of a natural number, most significant first. -/
def natToDecChars (n : Nat) : List Char :=
  natToDecAux (n + 1) n

/-- The decimal rendering of an integer, as Spark's integer-to-string cast
produces it (canonical digits, a leading minus sign for negatives). -/
def intToDecStr (m : Int) : String :=
  if m < 0 then String.mk ('-' :: natToDecChars m.natAbs)
  else String.mk (natToDecChars m.natAbs)

/-- Spark `cast` restricted to the two types the registry declares. An
unparseable string casts to null; null casts to null. -/
def castVal : String → Value → Value
  | "integer", VInt n => VInt n
  | "integer", VStr s => (match parseIntStr s with | some n => VInt n | none => VNull)
  | "integer", VNull => VNull
  | "string", VStr s => VStr s
  | "string", VInt n => VStr (intToDecStr n)
  | "string", VNull => VNull
  | _, v => v

/-- The materializer's `select`: project a source row onto the declared
fields, casting each to its declared type (notebook cell writing dimensions). -/
def castRow (flds : List DimField) (r : Row) : Row :=
  flds.map (fun fl => (fl.field, castVal fl.type (lookupV r fl.field)))

/-- Append the generated `id` column to each row, with consecutive ids
starting at `n`. -/
def withIds (n : Nat) : List Row → List Row
  | [] => []
  | r :: rs => (r ++ [("id", VInt n)]) :: withIds (n + 1) rs

/-- Dimension materialization: project+cast, `.distinct()` (dedup keeping the
first occurrence), then `withColumn("id", monotonically_increasing_id())`,
modelled here with the ids of the single-partition case. -/
def materializeRows (df : List Row) (spec : String × List DimField) : List Row :=
  withIds 0 ((df.map (castRow spec.2)).dedup)

/-- `withColumnRenamed old new` on one row. -/
def renameKey (a b : String) (r : Row) : Row :=
  r.map (fun kv => if kv.1 == a then (b, kv.2) else kv)

/-- The key-resolution loop's read-back of one dimension table from Postgres,
with its `id` column renamed to the dimension's FK column name. -/
def dimRead (df : List Row) (spec : String × List DimField) : List Row :=
  (materializeRows df spec).map (renameKey "id" (fkName spec))

/-- Join equality between operands of the same column type: null compares
unequal to everything (including null).  A comparison between operands of
different types additionally goes through the analyzer's implicit type
coercion, modelled by `valJoinEqCoerce` below; in this pipeline each side of
a join key is a single uniformly-typed column, where the two coincide. -/
def valJoinEq : Value → Value → Bool
  | VNull, _ => false
  | _, VNull => false
  | a, b => a == b

/-- Spark join equality including the analyzer's implicit type coercion for
binary comparisons: a string compared with an integer is cast to the integer
side's type (an unparseable string becomes null, which matches nothing);
null compares unequal to everything. -/
def valJoinEqCoerce : Value → Value → Bool
  | VNull, _ => false
  | _, VNull => false
  | VInt a, VInt b => a == b
  | VStr a, VStr b => a == b
  | VStr a, VInt b => (match parseIntStr a with | some n => n == b | none => false)
  | VInt a, VStr b => (match parseIntStr b with | some n => a == n | none => false)

/-- Whether two cell values could inhabit one Spark column: same runtime
type, with null compatible with everything. -/
def sameColTypeB : Value → Value → Bool
  | VNull, _ => true
  | _, VNull => true
  | VInt _, VInt _ => true
  | VStr _, VStr _ => true
  | _, _ => false

/-- A Spark dataframe column is uniformly typed: any two cells of column `c`
across the dataset share one runtime type (modulo nulls). -/
def uniformColumn (df : List Row) (c : String) : Prop :=
  ∀ r1 ∈ df, ∀ r2 ∈ df, sameColTypeB (lookupV r1 c) (lookupV r2 c) = true

instance (df : List Row) (c : String) : Decidable (uniformColumn df c) := by
  unfold uniformColumn
  infer_instance

/-- The dimension rows a fact row matches in the left join, under the full
coercing comparison semantics. -/
def joinMatchesCoerce (dimRows : List Row) (flds : List String) (r : Row) : List Row :=
  dimRows.filter (fun dr => flds.all (fun f => valJoinEqCoerce (lookupV r f) (lookupV dr f)))

/-- The dimension rows a fact row matches in the left join `on=table_fields`. -/
def joinMatches (dimRows : List Row) (flds : List String) (r : Row) : List Row :=
  dimRows.filter (fun dr => flds.all (fun f => valJoinEq (lookupV r f) (lookupV dr f)))

/-- `.drop(*table_fields)`: remove the natural-key columns from a row. -/
def dropKeyCols (flds : List String) (r : Row) : Row :=
  r.filter (fun kv => !(flds.contains kv.1))

/-- One iteration of the key-resolution loop: left-outer join against one
dimension table on its natural-key columns, then drop those columns.  A row
with no match keeps a null FK; a row with matches is repeated per match
(left-join fan-out semantics). -/
def resolveStep (dimRows : List Row) (flds : List String) (fk : String)
    (rows : List Row) : List Row :=
  rows.flatMap (fun r =>
    let ms := joinMatches dimRows flds r
    if ms.isEmpty then [dropKeyCols flds r ++ [(fk, VNull)]]
    else ms.map (fun m => dropKeyCols flds r ++ [(fk, lookupV m fk)]))

/-- The per-row effect of one resolution iteration when the dimension side
has at most one match (the deduplicated case): keep the non-key columns and
append the FK column, null when unmatched. -/
def stepRow1 (dimRows : List Row) (flds : List String) (fk : String) (r : Row) : Row :=
  dropKeyCols flds r ++
    [(fk, match (joinMatches dimRows flds r).head? with
          | some m => lookupV m fk
          | none => VNull)]

/-- `select` of a list of columns, in order (missing columns read as null). -/
def selectRow (cs : List String) (r : Row) : Row :=
  cs.map (fun c => (c, lookupV r c))

/-- The columns of the notebook's `facts_data` select: every dimension's
natural-key columns (registry order) followed by the measure columns. -/
def SOURCE_COLS : List String :=
  DIMENSION_ID_CONFIG.flatMap (fun e => e.2) ++ FACT_COLUMNS

/-- `facts_data` before resolution: the dataset restricted to the natural-key
and measure columns. -/
def factsData0 (df : List Row) : List Row :=
  df.map (selectRow SOURCE_COLS)

/-- The key-resolution loop over a list of dimension specs, each read back
from the store materialized from the same source dataset `df`. -/
def resolveSteps (dims : List (String × List DimField)) (df : List Row)
    (rows : List Row) : List Row :=
  dims.foldl
    (fun acc spec => resolveStep (dimRead df spec) (fieldNames spec) (fkName spec) acc)
    rows

/-- The full key-resolution loop of the notebook over the whole registry. -/
def resolveAll (df : List Row) : List Row :=
  resolveSteps DIMENSION_TABLES_CONFIG df (factsData0 df)

/-- The rows written by the fact loader: resolved rows reordered to
`FACT_TABLE_ALL_COLUMNS_ORDERED` and appended to the fact table. -/
def writtenFacts (df : List Row) : List Row :=
  (resolveAll df).map (selectRow FACT_TABLE_ALL_COLUMNS_ORDERED)

/-- The per-row composite of the whole resolution loop (`stepRow1` folded
over the registry); under deduplicated dimensions the loop acts as this map. -/
def rowFold (dims : List (String × List DimField)) (df : List Row) (r : Row) : Row :=
  dims.foldl
    (fun acc spec => stepRow1 (dimRead df spec) (fieldNames spec) (fkName spec) acc)
    r

/-- The column-name effect of the resolution loop, independent of the data:
each iteration filters out the natural-key columns and appends the FK column. -/
def colsFold (dims : List (String × List DimField)) (cs : List String) : List String :=
  dims.foldl
    (fun cs spec => cs.filter (fun c => !((fieldNames spec).contains c)) ++ [fkName spec])
    cs

/-- The tuple of natural-key values of a row, in declared field order. -/
def projVals (ks : List String) (r : Row) : List Value :=
  ks.map (fun k => lookupV r k)

/-! ### The fact-table DDL (`facts_table_sql` and its execution) -/

/-- Column definitions of the generated CREATE TABLE: the serial primary key,
one INTEGER column per measure, one BIGINT FK column per dimension. -/
def factsCreateColumnDefs : List (String × String) :=
  ("id", "SERIAL PRIMARY KEY") ::
    (FACT_COLUMNS.map (fun c => (c, "INTEGER")) ++
     DIMENSION_ID_CONFIG.map (fun e => ("ID_" ++ e.1, "BIGINT")))

/-- The ADD CONSTRAINT clauses of the generated ALTER TABLE: constraint name
`{fact}_{dim}_fk` and referenced dimension table, in registry order. -/
def factsAddConstraints : List (String × String) :=
  DIMENSION_ID_CONFIG.map (fun e => (FACT_TABLE_NAME ++ "_" ++ e.1 ++ "_fk", e.1))

/-- Schema state of the relational store: existing table names and existing
constraint names. -/
structure DbState where
  tables : List String
  constraints : List String
deriving DecidableEq, Repr

/-- A DDL failure, carrying the name of the failing constraint. -/
inductive DdlError where
  | dupConstraint : String → DdlError
  | missingTable : String → String → DdlError
deriving DecidableEq, Repr

/-- The constraint name an error reports. -/
def DdlError.cname : DdlError → String
  | dupConstraint c => c
  | missingTable c _ => c

/-- `CREATE TABLE IF NOT EXISTS`: a no-op when the table exists. -/
def createTableIfNotExists (st : DbState) (t : String) : DbState :=
  if st.tables.contains t then st else { st with tables := t :: st.tables }

/-- One `ADD CONSTRAINT ... FOREIGN KEY ... REFERENCES dim(id)` clause:
errors when the constraint name exists or the referenced table is absent. -/
def addFkConstraint (st : DbState) (c : String × String) : Except DdlError DbState :=
  if st.constraints.contains c.1 then Except.error (DdlError.dupConstraint c.1)
  else if !(st.tables.contains c.2) then Except.error (DdlError.missingTable c.1 c.2)
  else Except.ok { st with constraints := c.1 :: st.constraints }

/-- Execution of the ADD CONSTRAINT clauses in order, stopping at the first
failure. -/
def runAddConstraints (st : DbState) (cs : List (String × String)) :
    Except DdlError DbState :=
  List.foldlM addFkConstraint st cs

/-- Execution of the whole `facts_table_sql` string: the CREATE TABLE IF NOT
EXISTS followed by the ALTER TABLE with every ADD CONSTRAINT clause. -/
def runFactsDdl (st : DbState) : Except DdlError DbState :=
  runAddConstraints (createTableIfNotExists st FACT_TABLE_NAME) factsAddConstraints

/-- The notebook's schema-build call: `cursor.execute(facts_table_sql)` inside
try/except with `conn.rollback()` on failure and `conn.commit()` on success.
Returns the committed state and the reported error, if any. -/
def buildFactsSchema (st : DbState) : DbState × Option DdlError :=
  match runFactsDdl st with
  | Except.ok st2 => (st2, none)
  | Except.error e => (st, some e)

/-! ### `monotonically_increasing_id` -/

/-- Spark's `monotonically_increasing_id` over consecutive partitions starting
at partition index `p`: the id of row `i` of partition `p` is
`p * 2 ^ 33 + i`. -/
def mIdsFrom (p : Nat) : List Nat → List Nat
  | [] => []
  | sz :: rest => (List.range sz).map (fun i => p * 2 ^ 33 + i) ++ mIdsFrom (p + 1) rest

/-- The ids `monotonically_increasing_id` assigns to a dataframe whose
partitions have the given sizes. -/
def monotonicallyIncreasingIds (sizes : List Nat) : List Nat :=
  mIdsFrom 0 sizes

/-- Per-spec well-formedness used by the pipeline lemmas: declared field
names are distinct and do not include the generated `id` column. -/
def wfSpec (spec : String × List DimField) : Prop :=
  (fieldNames spec).Nodup ∧ "id" ∉ fieldNames spec

instance : DecidablePred wfSpec := fun spec => by
  unfold wfSpec
  infer_instance

/-! ### Concrete sample data used to instantiate the theorems -/

/-- The two-row sample dataset of the spec's scenario (same city, two
different teacher counts). -/
def exDfA : List Row :=
  [[("NO_UF", VStr "Acre"), ("NO_MUNICIPIO", VStr "Rio Branco"), ("QT_DOC_BAS", VInt 100)],
   [("NO_UF", VStr "Acre"), ("NO_MUNICIPIO", VStr "Rio Branco"), ("QT_DOC_BAS", VInt 50)]]

/-- A row whose `TP_DEPENDENCIA` arrives as the string "01": its integer cast
is `1`, which differs from the raw value. -/
def exRowB : Row := [("TP_DEPENDENCIA", VStr "01"), ("QT_DOC_BAS", VInt 100)]

/-- The one-row dataset around `exRowB`. -/
def exDfB : List Row := [exRowB]

/-- A row whose `TP_DEPENDENCIA` is null: its natural key genuinely matches
no dimension row, since null joins with nothing. -/
def exRowC : Row := [("TP_DEPENDENCIA", VNull), ("QT_DOC_BAS", VInt 7)]

/-- The one-row dataset around `exRowC`. -/
def exDfC : List Row := [exRowC]

/-- The registry entry of the `TP_DEPENDENCIA` dimension. -/
def tpDepSpec : String × List DimField :=
  ("DIM_TP_DEPENDENCIA", [⟨"TP_DEPENDENCIA", "integer"⟩])

/-- The registry entry of the `DIM_LOCAL` dimension. -/
def dimLocalSpec : String × List DimField :=
  ("DIM_LOCAL",
   [⟨"NO_UF", "string"⟩, ⟨"SG_UF", "string"⟩, ⟨"CO_UF", "string"⟩,
    ⟨"NO_MUNICIPIO", "string"⟩, ⟨"CO_MUNICIPIO", "string"⟩])

/-- A store holding every materialized dimension table and nothing else. -/
def stDims : DbState := ⟨DIMENSION_TABLES_CONFIG.map Prod.fst, []⟩

/-- An empty store (no tables at all). -/
def stEmpty : DbState := ⟨[], []⟩

/-- A hypothetical hand-written two-field spec body for a table `DIM_X`. -/
def specX2 : List DimField := [⟨"A", "string"⟩, ⟨"B", "string"⟩]

/-! ### Association-list toolkit -/

theorem lookupV_cons_eq (c : String) (v : Value) (r : Row) :
    lookupV ((c, v) :: r) c = v := by
  simp [lookupV, List.find?]

theorem lookupV_cons_ne (k c : String) (v : Value) (r : Row) (h : k ≠ c) :
    lookupV ((k, v) :: r) c = lookupV r c := by
  have hb : (k == c) = false := by simp [h]
  simp [lookupV, List.find?, hb]

theorem lookupV_of_not_mem (r : Row) (c : String) (h : c ∉ r.map Prod.fst) :
    lookupV r c = VNull := by
  have hfind : r.find? (fun kv => kv.1 == c) = none := by
    rw [List.find?_eq_none]
    intro kv hkv
    simp only [beq_iff_eq]
    intro he
    exact h (he ▸ List.mem_map_of_mem Prod.fst hkv)
  simp [lookupV, hfind]

theorem lookupV_append_left (r s : Row) (c : String) (h : c ∈ r.map Prod.fst) :
    lookupV (r ++ s) c = lookupV r c := by
  obtain ⟨kv, hkv, hc⟩ := List.mem_map.mp h
  have : r.find? (fun kv => kv.1 == c) ≠ none := by
    intro hnone
    rw [List.find?_eq_none] at hnone
    exact hnone kv hkv (by simp [hc])
  obtain ⟨a, ha⟩ := Option.ne_none_iff_exists'.mp this
  simp [lookupV, List.find?_append, ha]

theorem lookupV_append_right (r s : Row) (c : String) (h : c ∉ r.map Prod.fst) :
    lookupV (r ++ s) c = lookupV s c := by
  have hfind : r.find? (fun kv => kv.1 == c) = none := by
    rw [List.find?_eq_none]
    intro kv hkv
    simp only [beq_iff_eq]
    intro he
    exact h (he ▸ List.mem_map_of_mem Prod.fst hkv)
  simp [lookupV, List.find?_append, hfind]

theorem lookupV_filter (r : Row) (c : String) (P : String × Value → Bool)
    (h : ∀ kv ∈ r, kv.1 = c → P kv = true) :
    lookupV (r.filter P) c = lookupV r c := by
  induction r with
  | nil => rfl
  | cons kv r ih =>
    by_cases hc : kv.1 = c
    · have hP : P kv = true := h kv (List.mem_cons_self kv r) hc
      obtain ⟨k, v⟩ := kv
      simp only at hc
      subst hc
      rw [List.filter_cons_of_pos hP, lookupV_cons_eq, lookupV_cons_eq]
    · obtain ⟨k, v⟩ := kv
      simp only at hc
      have ih' := ih (fun kv hkv => h kv (List.mem_cons_of_mem _ hkv))
      by_cases hP : P (k, v) = true
      · rw [List.filter_cons_of_pos hP, lookupV_cons_ne _ _ _ _ hc,
          lookupV_cons_ne _ _ _ _ hc, ih']
      · rw [List.filter_cons_of_neg (by simpa using hP), lookupV_cons_ne _ _ _ _ hc, ih']

theorem keys_dropKeyCols (flds : List String) (r : Row) :
    (dropKeyCols flds r).map Prod.fst =
      (r.map Prod.fst).filter (fun c => !(flds.contains c)) := by
  unfold dropKeyCols
  rw [List.filter_map]
  rfl

theorem mem_keys_dropKeyCols (flds : List String) (r : Row) (c : String) :
    c ∈ (dropKeyCols flds r).map Prod.fst ↔
      c ∈ r.map Prod.fst ∧ flds.contains c = false := by
  rw [keys_dropKeyCols, List.mem_filter, Bool.not_eq_true']

theorem proj_self (ks : List String) (r : Row) (h : r.map Prod.fst = ks)
    (hnd : ks.Nodup) : projVals ks r = r.map Prod.snd := by
  induction r generalizing ks with
  | nil => subst h; rfl
  | cons kv r ih =>
    obtain ⟨k, v⟩ := kv
    subst h
    simp only [List.map_cons] at hnd ⊢
    rw [List.nodup_cons] at hnd
    unfold projVals
    simp only [List.map_cons, lookupV_cons_eq]
    congr 1
    have : (r.map Prod.fst).map (fun k' => lookupV ((k, v) :: r) k') =
        (r.map Prod.fst).map (fun k' => lookupV r k') := by
      apply List.map_congr_left
      intro k' hk'
      exact lookupV_cons_ne _ _ _ _ (fun he => hnd.1 (he ▸ hk'))
    exact this.trans (ih (r.map Prod.fst) rfl hnd.2)

theorem proj_append_left (ks : List String) (r s : Row)
    (h : ∀ k ∈ ks, k ∈ r.map Prod.fst) :
    projVals ks (r ++ s) = projVals ks r := by
  apply List.map_congr_left
  intro k hk
  exact lookupV_append_left r s k (h k hk)

theorem assoc_ext (r s : Row) (ks : List String) (hr : r.map Prod.fst = ks)
    (hs : s.map Prod.fst = ks) (h : r.map Prod.snd = s.map Prod.snd) : r = s := by
  have hr' : r = ks.zip (r.map Prod.snd) := List.zip_of_prod hr rfl
  have hs' : s = ks.zip (s.map Prod.snd) := List.zip_of_prod hs rfl
  rw [hr', hs', h]

/-! ### Join lemmas -/

theorem valJoinEq_eq {a b : Value} (h : valJoinEq a b = true) : a = b ∧ a ≠ VNull := by
  cases a <;> cases b <;> simp_all [valJoinEq]

theorem mem_joinMatches {dimRows : List Row} {flds : List String} {r dr : Row}
    (h : dr ∈ joinMatches dimRows flds r) :
    dr ∈ dimRows ∧ ∀ f ∈ flds, lookupV dr f = lookupV r f := by
  unfold joinMatches at h
  rw [List.mem_filter] at h
  refine ⟨h.1, fun f hf => ?_⟩
  have := (List.all_eq_true.mp h.2) f hf
  exact ((valJoinEq_eq this).1).symm

theorem joinMatches_proj {dimRows : List Row} {flds : List String} {r dr : Row}
    (h : dr ∈ joinMatches dimRows flds r) :
    projVals flds dr = projVals flds r := by
  apply List.map_congr_left
  intro f hf
  exact (mem_joinMatches h).2 f hf

theorem filter_length_le_one {α β : Type} [DecidableEq β] {l : List α} {p : α → Bool}
    {f : α → β} {t : β} (hn : (l.map f).Nodup) (ht : ∀ a ∈ l, p a = true → f a = t) :
    (l.filter p).length ≤ 1 := by
  induction l with
  | nil => simp
  | cons a l ih =>
    simp only [List.map_cons, List.nodup_cons] at hn
    by_cases hp : p a = true
    · rw [List.filter_cons_of_pos hp]
      have hnil : l.filter p = [] := by
        rw [List.filter_eq_nil_iff]
        intro b hb hpb
        have hfb : f b = t := ht b (List.mem_cons_of_mem _ hb) hpb
        have hfa : f a = t := ht a (List.mem_cons_self a l) hp
        exact hn.1 ((hfa.trans hfb.symm) ▸ List.mem_map_of_mem f hb)
      simp [hnil]
    · rw [List.filter_cons_of_neg (by simpa using hp)]
      exact ih hn.2 (fun b hb => ht b (List.mem_cons_of_mem _ hb))

theorem joinMatches_length_le_one {dimRows : List Row} {flds : List String} {r : Row}
    (hn : (dimRows.map (projVals flds)).Nodup) :
    (joinMatches dimRows flds r).length ≤ 1 := by
  apply filter_length_le_one hn
  intro dr hdr hp
  apply List.map_congr_left
  intro f hf
  exact ((valJoinEq_eq ((List.all_eq_true.mp hp) f hf)).1).symm

theorem joinMatches_congr {dimRows : List Row} {flds : List String} {r s : Row}
    (h : ∀ f ∈ flds, lookupV r f = lookupV s f) :
    joinMatches dimRows flds r = joinMatches dimRows flds s := by
  unfold joinMatches
  apply List.filter_congr
  intro dr _
  rw [Bool.eq_iff_iff, List.all_eq_true, List.all_eq_true]
  constructor <;> intro ha f hf
  · rw [← h f hf]
    exact ha f hf
  · rw [h f hf]
    exact ha f hf

/-! ### One resolution step as a per-row map -/

theorem resolveStep_row_singleton (dimRows : List Row) (flds : List String)
    (fk : String) (r : Row) (hn : (dimRows.map (projVals flds)).Nodup) :
    (let ms := joinMatches dimRows flds r
     if ms.isEmpty then [dropKeyCols flds r ++ [(fk, VNull)]]
     else ms.map (fun m => dropKeyCols flds r ++ [(fk, lookupV m fk)])) =
      [stepRow1 dimRows flds fk r] := by
  have hlen := joinMatches_length_le_one (r := r) hn
  unfold stepRow1
  cases hms : joinMatches dimRows flds r with
  | nil => simp
  | cons m ms' =>
    cases ms' with
    | nil => simp
    | cons m2 ms'' =>
      rw [hms] at hlen
      simp at hlen

theorem resolveStep_eq_map (dimRows : List Row) (flds : List String) (fk : String)
    (rows : List Row) (hn : (dimRows.map (projVals flds)).Nodup) :
    resolveStep dimRows flds fk rows = rows.map (stepRow1 dimRows flds fk) := by
  induction rows with
  | nil => rfl
  | cons r rows ih =>
    unfold resolveStep at ih ⊢
    rw [List.flatMap_cons, ih, resolveStep_row_singleton dimRows flds fk r hn]
    rfl

theorem keys_stepRow1 (dimRows : List Row) (flds : List String) (fk : String) (r : Row) :
    (stepRow1 dimRows flds fk r).map Prod.fst =
      ((r.map Prod.fst).filter (fun c => !(flds.contains c))) ++ [fk] := by
  unfold stepRow1
  rw [List.map_append, keys_dropKeyCols]
  rfl

theorem lookupV_stepRow1_of_ne (dimRows : List Row) (flds : List String) (fk : String)
    (r : Row) (c : String) (hc1 : c ∉ flds) (hc2 : c ≠ fk) :
    lookupV (stepRow1 dimRows flds fk r) c = lookupV r c := by
  unfold stepRow1
  have hcontains : flds.contains c = false := by
    cases hb : flds.contains c with
    | false => rfl
    | true => exact absurd (List.elem_iff.mp hb) hc1
  by_cases hm : c ∈ (dropKeyCols flds r).map Prod.fst
  · rw [lookupV_append_left _ _ _ hm]
    apply lookupV_filter
    intro kv _ hkv
    show (!(flds.contains kv.1)) = true
    rw [hkv, hcontains]
    rfl
  · rw [lookupV_append_right _ _ _ hm]
    have hr : c ∉ r.map Prod.fst := by
      intro hcr
      exact hm ((mem_keys_dropKeyCols flds r c).mpr ⟨hcr, hcontains⟩)
    rw [lookupV_of_not_mem r c hr, lookupV_cons_ne _ _ _ _ (Ne.symm hc2)]
    rfl

theorem lookupV_stepRow1_fk (dimRows : List Row) (flds : List String) (fk : String)
    (r : Row) (h : fk ∉ r.map Prod.fst) :
    lookupV (stepRow1 dimRows flds fk r) fk =
      (match (joinMatches dimRows flds r).head? with
       | some m => lookupV m fk
       | none => VNull) := by
  unfold stepRow1
  have hnm : fk ∉ (dropKeyCols flds r).map Prod.fst := by
    intro hmem
    exact h ((mem_keys_dropKeyCols flds r fk).mp hmem).1
  rw [lookupV_append_right _ _ _ hnm, lookupV_cons_eq]

/-! ### The resolution loop as a per-row fold -/

theorem rowFold_cons (spec : String × List DimField) (dims : List (String × List DimField))
    (df : List Row) (r : Row) :
    rowFold (spec :: dims) df r =
      rowFold dims df (stepRow1 (dimRead df spec) (fieldNames spec) (fkName spec) r) := rfl

theorem rowFold_append (l1 l2 : List (String × List DimField)) (df : List Row) (r : Row) :
    rowFold (l1 ++ l2) df r = rowFold l2 df (rowFold l1 df r) := by
  unfold rowFold
  exact List.foldl_append _ _ l1 l2

theorem resolveSteps_cons (spec : String × List DimField)
    (dims : List (String × List DimField)) (df : List Row) (rows : List Row) :
    resolveSteps (spec :: dims) df rows =
      resolveSteps dims df
        (resolveStep (dimRead df spec) (fieldNames spec) (fkName spec) rows) := rfl

theorem resolveSteps_eq_map (dims : List (String × List DimField)) (df : List Row)
    (rows : List Row)
    (hn : ∀ spec ∈ dims, ((dimRead df spec).map (projVals (fieldNames spec))).Nodup) :
    resolveSteps dims df rows = rows.map (rowFold dims df) := by
  induction dims generalizing rows with
  | nil =>
    show rows = rows.map (rowFold [] df)
    have : rowFold [] df = id := rfl
    rw [this, List.map_id]
  | cons spec dims ih =>
    rw [resolveSteps_cons,
      resolveStep_eq_map _ _ _ _ (hn spec (List.mem_cons_self spec dims)),
      ih _ (fun s hs => hn s (List.mem_cons_of_mem _ hs)), List.map_map]
    rfl

theorem lookupV_rowFold_of_ne (dims : List (String × List DimField)) (df : List Row)
    (r : Row) (c : String)
    (h : ∀ spec ∈ dims, c ∉ fieldNames spec ∧ c ≠ fkName spec) :
    lookupV (rowFold dims df r) c = lookupV r c := by
  induction dims generalizing r with
  | nil => rfl
  | cons spec dims ih =>
    rw [rowFold_cons, ih _ (fun s hs => h s (List.mem_cons_of_mem _ hs))]
    have hc := h spec (List.mem_cons_self spec dims)
    exact lookupV_stepRow1_of_ne _ _ _ _ _ hc.1 hc.2

theorem keys_rowFold (dims : List (String × List DimField)) (df : List Row) (r : Row) :
    (rowFold dims df r).map Prod.fst = colsFold dims (r.map Prod.fst) := by
  induction dims generalizing r with
  | nil => rfl
  | cons spec dims ih =>
    rw [rowFold_cons, ih]
    show _ = colsFold dims _
    rw [keys_stepRow1]

theorem mem_colsFold (dims : List (String × List DimField)) (cs : List String)
    (c : String) (h : c ∈ colsFold dims cs) :
    c ∈ cs ∨ ∃ s ∈ dims, c = fkName s := by
  induction dims generalizing cs with
  | nil => exact Or.inl h
  | cons spec dims ih =>
    have h' : c ∈ colsFold dims
        (cs.filter (fun c => !((fieldNames spec).contains c)) ++ [fkName spec]) := h
    rcases ih _ h' with hc | ⟨s, hs, he⟩
    · rcases List.mem_append.mp hc with hc1 | hc2
      · exact Or.inl (List.mem_of_mem_filter hc1)
      · exact Or.inr ⟨spec, List.mem_cons_self spec dims, List.mem_singleton.mp hc2⟩
    · exact Or.inr ⟨s, List.mem_cons_of_mem _ hs, he⟩

/-! ### Structure of the materialized dimension tables -/

theorem castRow_keys (flds : List DimField) (r : Row) :
    (castRow flds r).map Prod.fst = flds.map (fun fl => fl.field) := by
  unfold castRow
  rw [List.map_map]
  rfl

theorem mem_withIds (n : Nat) (rs : List Row) (m : Row) (h : m ∈ withIds n rs) :
    ∃ i r, r ∈ rs ∧ m = r ++ [("id", VInt i)] := by
  induction rs generalizing n with
  | nil => cases h
  | cons r rs ih =>
    rcases List.mem_cons.mp h with he | hm
    · exact ⟨n, r, List.mem_cons_self r rs, he⟩
    · obtain ⟨i, r', hr', he'⟩ := ih (n + 1) hm
      exact ⟨i, r', List.mem_cons_of_mem _ hr', he'⟩

theorem proj_withIds (ks : List String) (n : Nat) (rs : List Row)
    (h : ∀ r ∈ rs, ∀ k ∈ ks, k ∈ r.map Prod.fst) :
    (withIds n rs).map (projVals ks) = rs.map (projVals ks) := by
  induction rs generalizing n with
  | nil => rfl
  | cons r rs ih =>
    show (projVals ks (r ++ [("id", VInt (n : Int))]) :: _) = _
    rw [proj_append_left ks r _ (h r (List.mem_cons_self r rs)),
      ih (n + 1) (fun r' hr' => h r' (List.mem_cons_of_mem _ hr'))]
    rfl

theorem dedupCast_keys (df : List Row) (flds : List DimField) (cr : Row)
    (h : cr ∈ (df.map (castRow flds)).dedup) :
    cr.map Prod.fst = flds.map (fun fl => fl.field) := by
  have := List.mem_dedup.mp h
  obtain ⟨r, _, he⟩ := List.mem_map.mp this
  rw [← he, castRow_keys]

theorem nodup_proj_dedupCast (df : List Row) (flds : List DimField)
    (hnd : (flds.map (fun fl => fl.field)).Nodup) :
    ((df.map (castRow flds)).dedup.map (projVals (flds.map (fun fl => fl.field)))).Nodup := by
  apply List.Nodup.map_on
  · intro a ha b hb hab
    have hka := dedupCast_keys df flds a ha
    have hkb := dedupCast_keys df flds b hb
    apply assoc_ext a b _ hka hkb
    rw [← proj_self _ a hka hnd, ← proj_self _ b hkb hnd, hab]
  · exact List.nodup_dedup _

theorem proj_materializeRows (df : List Row) (spec : String × List DimField)
    (_hw : wfSpec spec) :
    (materializeRows df spec).map (projVals (fieldNames spec)) =
      (df.map (castRow spec.2)).dedup.map (projVals (fieldNames spec)) := by
  unfold materializeRows
  apply proj_withIds
  intro r hr k hk
  rw [dedupCast_keys df spec.2 r hr]
  exact hk

theorem nodup_proj_materializeRows (df : List Row) (spec : String × List DimField)
    (hw : wfSpec spec) :
    ((materializeRows df spec).map (projVals (fieldNames spec))).Nodup := by
  rw [proj_materializeRows df spec hw]
  exact nodup_proj_dedupCast df spec.2 hw.1

theorem renameKey_of_not_mem (a b : String) (r : Row) (h : a ∉ r.map Prod.fst) :
    renameKey a b r = r := by
  unfold renameKey
  have : ∀ kv ∈ r, (if kv.1 == a then (b, kv.2) else kv) = id kv := by
    intro kv hkv
    have : (kv.1 == a) = false := by
      simp only [beq_eq_false_iff_ne, ne_eq]
      intro he
      exact h (he ▸ List.mem_map_of_mem Prod.fst hkv)
    simp [this]
  rw [List.map_congr_left this, List.map_id]

theorem renameKey_append (a b : String) (r s : Row) :
    renameKey a b (r ++ s) = renameKey a b r ++ renameKey a b s := by
  unfold renameKey
  exact List.map_append _ r s

/-- Every row of the read-back dimension table is a deduplicated cast row
followed by its FK-named id pair. -/
theorem mem_dimRead (df : List Row) (spec : String × List DimField) (hid : "id" ∉ fieldNames spec)
    (m : Row) (h : m ∈ dimRead df spec) :
    ∃ i cr, cr ∈ (df.map (castRow spec.2)).dedup ∧ m = cr ++ [(fkName spec, VInt i)] := by
  unfold dimRead materializeRows at h
  obtain ⟨m0, hm0, he⟩ := List.mem_map.mp h
  obtain ⟨i, cr, hcr, he0⟩ := mem_withIds 0 _ m0 hm0
  refine ⟨i, cr, hcr, ?_⟩
  rw [← he, he0, renameKey_append,
    renameKey_of_not_mem _ _ cr (by rw [dedupCast_keys df spec.2 cr hcr]; exact hid)]
  simp [renameKey]

theorem lookupV_dimRead_fk (df : List Row) (spec : String × List DimField)
    (hid : "id" ∉ fieldNames spec) (hfk : fkName spec ∉ fieldNames spec)
    (m : Row) (h : m ∈ dimRead df spec) :
    ∃ i : Int, lookupV m (fkName spec) = VInt i := by
  obtain ⟨i, cr, hcr, he⟩ := mem_dimRead df spec hid m h
  refine ⟨i, ?_⟩
  rw [he, lookupV_append_right, lookupV_cons_eq]
  rw [dedupCast_keys df spec.2 cr hcr]
  exact hfk

theorem proj_dimRead (df : List Row) (spec : String × List DimField)
    (hw : wfSpec spec) :
    (dimRead df spec).map (projVals (fieldNames spec)) =
      (materializeRows df spec).map (projVals (fieldNames spec)) := by
  unfold dimRead
  rw [List.map_map]
  apply List.map_congr_left
  intro m0 hm0
  show projVals _ (renameKey _ _ m0) = _
  unfold materializeRows at hm0
  obtain ⟨i, cr, hcr, he0⟩ := mem_withIds 0 _ m0 hm0
  have hkeys : cr.map Prod.fst = fieldNames spec := dedupCast_keys df spec.2 cr hcr
  have hmem : ∀ k ∈ fieldNames spec, k ∈ cr.map Prod.fst := fun k hk => hkeys ▸ hk
  rw [he0, renameKey_append, renameKey_of_not_mem _ _ cr (hkeys ▸ hw.2),
    proj_append_left _ _ _ hmem, proj_append_left _ _ _ hmem]

theorem nodup_proj_dimRead (df : List Row) (spec : String × List DimField)
    (hw : wfSpec spec) :
    ((dimRead df spec).map (projVals (fieldNames spec))).Nodup := by
  rw [proj_dimRead df spec hw]
  exact nodup_proj_materializeRows df spec hw

/-! ### Select lemmas -/

theorem selectRow_keys (cs : List String) (r : Row) :
    (selectRow cs r).map Prod.fst = cs := by
  unfold selectRow
  rw [List.map_map]
  exact List.map_id cs

theorem lookupV_selectRow (cs : List String) (r : Row) (c : String) (h : c ∈ cs) :
    lookupV (selectRow cs r) c = lookupV r c := by
  induction cs with
  | nil => cases h
  | cons c' cs ih =>
    by_cases he : c' = c
    · subst he
      exact lookupV_cons_eq _ _ _
    · rw [show selectRow (c' :: cs) r = (c', lookupV r c') :: selectRow cs r from rfl,
        lookupV_cons_ne _ _ _ _ he]
      exact ih (List.mem_of_ne_of_mem (fun hc => he hc.symm) h)

/-! ### Decidable well-formedness of the concrete registry -/

/-- Global well-formedness of the concrete registry: distinct table names,
distinct FK column names, pairwise-disjoint natural-key columns, no
natural-key column named like an FK column, no FK column among the selected
source columns, and per-spec well-formedness. -/
def REGISTRY_OK : Prop :=
  (DIMENSION_TABLES_CONFIG.map Prod.fst).Nodup ∧
  (DIMENSION_TABLES_CONFIG.map fkName).Nodup ∧
  (∀ s ∈ DIMENSION_TABLES_CONFIG, ∀ t ∈ DIMENSION_TABLES_CONFIG, s ≠ t →
    ∀ f ∈ fieldNames s, f ∉ fieldNames t) ∧
  (∀ s ∈ DIMENSION_TABLES_CONFIG, ∀ t ∈ DIMENSION_TABLES_CONFIG,
    ∀ f ∈ fieldNames s, f ≠ fkName t) ∧
  (∀ s ∈ DIMENSION_TABLES_CONFIG, fkName s ∉ SOURCE_COLS) ∧
  (∀ s ∈ DIMENSION_TABLES_CONFIG, wfSpec s)

theorem registry_ok : REGISTRY_OK := by
  unfold REGISTRY_OK
  decide

theorem nodup_proj_config (df : List Row) :
    ∀ spec ∈ DIMENSION_TABLES_CONFIG,
      ((dimRead df spec).map (projVals (fieldNames spec))).Nodup := by
  intro spec h
  exact nodup_proj_dimRead df spec (registry_ok.2.2.2.2.2 spec h)

theorem resolveAll_eq_map (df : List Row) :
    resolveAll df = (factsData0 df).map (rowFold DIMENSION_TABLES_CONFIG df) :=
  resolveSteps_eq_map DIMENSION_TABLES_CONFIG df (factsData0 df) (nodup_proj_config df)

theorem writtenFacts_eq_map (df : List Row) :
    writtenFacts df = (factsData0 df).map
      (fun r => selectRow FACT_TABLE_ALL_COLUMNS_ORDERED (rowFold DIMENSION_TABLES_CONFIG df r)) := by
  unfold writtenFacts
  rw [resolveAll_eq_map, List.map_map]
  rfl

theorem keys_factsData0 (df : List Row) (r : Row) (h : r ∈ factsData0 df) :
    r.map Prod.fst = SOURCE_COLS := by
  obtain ⟨raw, _, he⟩ := List.mem_map.mp h
  rw [← he, selectRow_keys]

/-- What the full resolution loop leaves in the FK column of one dimension:
the id of the (unique) matching dimension row, or null when no dimension row
join-matches the fact row's raw natural-key values. -/
theorem rowFold_fk_char (df : List Row) (spec : String × List DimField)
    (hmem : spec ∈ DIMENSION_TABLES_CONFIG) (r : Row)
    (hkeys : r.map Prod.fst = SOURCE_COLS) :
    lookupV (rowFold DIMENSION_TABLES_CONFIG df r) (fkName spec) =
      (match (joinMatches (dimRead df spec) (fieldNames spec) r).head? with
       | some m => lookupV m (fkName spec)
       | none => VNull) := by
  obtain ⟨pre, post, hsplit⟩ := List.append_of_mem hmem
  obtain ⟨hn1, hn2, hdisj, hfknf, hfksrc, hwf⟩ := registry_ok
  have hpre_sub : ∀ s ∈ pre, s ∈ DIMENSION_TABLES_CONFIG := by
    intro s hs
    rw [hsplit]
    exact List.mem_append_left _ hs
  have hpost_sub : ∀ s ∈ post, s ∈ DIMENSION_TABLES_CONFIG := by
    intro s hs
    rw [hsplit]
    exact List.mem_append_right _ (List.mem_cons_of_mem _ hs)
  have hentries : DIMENSION_TABLES_CONFIG.Nodup := List.Nodup.of_map _ hn1
  have hsplit_nodup : (pre ++ spec :: post).Nodup := by
    rw [hsplit] at hentries
    exact hentries
  have hspec_pre : spec ∉ pre := by
    intro hp
    exact (List.disjoint_of_nodup_append hsplit_nodup) hp (List.mem_cons_self spec post)
  have hfk_nodup : (pre.map fkName ++ fkName spec :: post.map fkName).Nodup := by
    rw [hsplit, List.map_append, List.map_cons] at hn2
    exact hn2
  have hfk_not_pre : fkName spec ∉ pre.map fkName := fun hp =>
    (List.disjoint_of_nodup_append hfk_nodup) hp (List.mem_cons_self _ _)
  have hfk_not_post : fkName spec ∉ post.map fkName :=
    (List.nodup_cons.mp hfk_nodup.of_append_right).1
  rw [hsplit, rowFold_append, rowFold_cons]
  have hkeys1 : (rowFold pre df r).map Prod.fst = colsFold pre SOURCE_COLS := by
    rw [keys_rowFold, hkeys]
  have hpost : ∀ s ∈ post, fkName spec ∉ fieldNames s ∧ fkName spec ≠ fkName s := by
    intro s hs
    constructor
    · intro hf
      exact (hfknf s (hpost_sub s hs) spec hmem (fkName spec) hf) rfl
    · intro he
      apply hfk_not_post
      rw [he]
      exact List.mem_map_of_mem fkName hs
  rw [lookupV_rowFold_of_ne post df _ (fkName spec) hpost]
  have hfkfresh : fkName spec ∉ (rowFold pre df r).map Prod.fst := by
    rw [hkeys1]
    intro hmemk
    rcases mem_colsFold pre SOURCE_COLS _ hmemk with hsrc | ⟨s, hs, he⟩
    · exact hfksrc spec hmem hsrc
    · apply hfk_not_pre
      rw [he]
      exact List.mem_map_of_mem fkName hs
  rw [lookupV_stepRow1_fk _ _ _ _ hfkfresh]
  have hjoin : joinMatches (dimRead df spec) (fieldNames spec) (rowFold pre df r) =
      joinMatches (dimRead df spec) (fieldNames spec) r := by
    apply joinMatches_congr
    intro f hf
    apply lookupV_rowFold_of_ne
    intro s hs
    have hsC := hpre_sub s hs
    have hne : spec ≠ s := fun he => hspec_pre (he ▸ hs)
    exact ⟨hdisj spec hmem s hsC hne f hf, hfknf spec hmem s hsC f hf⟩
  rw [hjoin]

/-! ### DDL execution lemmas -/

theorem createTable_constraints (st : DbState) (t : String) :
    (createTableIfNotExists st t).constraints = st.constraints := by
  unfold createTableIfNotExists
  split <;> rfl

theorem addFkConstraint_error_cname {st : DbState} {c : String × String} {e : DdlError}
    (h : addFkConstraint st c = Except.error e) : e.cname = c.1 := by
  unfold addFkConstraint at h
  split at h
  · cases h
    rfl
  · split at h
    · cases h
      rfl
    · cases h

theorem addFkConstraint_ok_constraints {st st2 : DbState} {c : String × String}
    (h : addFkConstraint st c = Except.ok st2) :
    st2.constraints = c.1 :: st.constraints := by
  unfold addFkConstraint at h
  split at h
  · cases h
  · split at h
    · cases h
    · cases h
      rfl

theorem runAddConstraints_error_mem {st : DbState} {cs : List (String × String)}
    {e : DdlError} (h : runAddConstraints st cs = Except.error e) :
    e.cname ∈ cs.map Prod.fst := by
  induction cs generalizing st with
  | nil => cases h
  | cons c cs ih =>
    unfold runAddConstraints at h ih
    rw [List.foldlM_cons] at h
    cases hc : addFkConstraint st c with
    | error e0 =>
      rw [hc] at h
      have hred : (Except.error e0 >>= fun st2 => List.foldlM addFkConstraint st2 cs) =
          (Except.error e0 : Except DdlError DbState) := rfl
      rw [hred] at h
      injection h with he
      subst he
      rw [addFkConstraint_error_cname hc, List.map_cons]
      exact List.mem_cons_self _ _
    | ok st2 =>
      rw [hc] at h
      have hred : (Except.ok st2 >>= fun st2 => List.foldlM addFkConstraint st2 cs) =
          List.foldlM addFkConstraint st2 cs := rfl
      rw [hred] at h
      exact List.mem_cons_of_mem _ (ih h)

theorem runAddConstraints_mono {st st' : DbState} {cs : List (String × String)}
    (h : runAddConstraints st cs = Except.ok st') :
    ∀ x ∈ st.constraints, x ∈ st'.constraints := by
  induction cs generalizing st with
  | nil =>
    cases h
    exact fun x hx => hx
  | cons c cs ih =>
    unfold runAddConstraints at h ih
    rw [List.foldlM_cons] at h
    cases hc : addFkConstraint st c with
    | error e0 =>
      rw [hc] at h
      cases h
    | ok st2 =>
      rw [hc] at h
      intro x hx
      apply ih h
      rw [addFkConstraint_ok_constraints hc]
      exact List.mem_cons_of_mem _ hx

theorem runAddConstraints_ok_mem {st st' : DbState} {cs : List (String × String)}
    (h : runAddConstraints st cs = Except.ok st') :
    ∀ c ∈ cs, c.1 ∈ st'.constraints := by
  induction cs generalizing st with
  | nil => intro c hc; cases hc
  | cons c cs ih =>
    unfold runAddConstraints at h ih
    rw [List.foldlM_cons] at h
    cases hc : addFkConstraint st c with
    | error e0 =>
      rw [hc] at h
      cases h
    | ok st2 =>
      rw [hc] at h
      intro d hd
      rcases List.mem_cons.mp hd with he | hm
      · subst he
        apply runAddConstraints_mono h
        rw [addFkConstraint_ok_constraints hc]
        exact List.mem_cons_self _ _
      · exact ih h d hm

/-! ### Registry-merge lemmas -/

theorem insertOrReplace_keys {α : Type} (base : List (String × α)) (kv : String × α) :
    (insertOrReplace base kv).map Prod.fst =
      if base.any (fun p => p.1 == kv.1) then base.map Prod.fst
      else base.map Prod.fst ++ [kv.1] := by
  unfold insertOrReplace
  split
  · rw [List.map_map]
    apply List.map_congr_left
    intro p _
    by_cases hb : (p.1 == kv.1) = true
    · simp only [Function.comp_apply, if_pos hb]
      exact (beq_iff_eq.mp hb).symm
    · simp only [Function.comp_apply, if_neg hb]
  · rw [List.map_append]
    rfl

theorem dictUpdate_keys_nodup {α : Type} (base upd : List (String × α))
    (h : (base.map Prod.fst).Nodup) :
    ((dictUpdate base upd).map Prod.fst).Nodup := by
  induction upd generalizing base with
  | nil => exact h
  | cons kv upd ih =>
    apply ih
    rw [insertOrReplace_keys]
    split
    · exact h
    · rename_i hany
      rw [List.nodup_append]
      refine ⟨h, List.nodup_singleton _, ?_⟩
      intro x hx hx1
      rw [List.mem_singleton] at hx1
      subst hx1
      apply hany
      rw [List.any_eq_true]
      obtain ⟨p, hp, hpe⟩ := List.mem_map.mp hx
      exact ⟨p, hp, by simp [hpe]⟩

/-! ### Surrogate-key lemmas -/

theorem ids_withIds (n : Nat) (rs : List Row) (h : ∀ r ∈ rs, "id" ∉ r.map Prod.fst) :
    (withIds n rs).map (fun r => lookupV r "id") =
      (List.range' n rs.length).map (fun k : Nat => VInt k) := by
  induction rs generalizing n with
  | nil => rfl
  | cons r rs ih =>
    show lookupV (r ++ [("id", VInt n)]) "id" :: _ = _
    rw [lookupV_append_right _ _ _ (h r (List.mem_cons_self r rs)), lookupV_cons_eq,
      List.length_cons, List.range'_succ, List.map_cons,
      ih (n + 1) (fun r' hr' => h r' (List.mem_cons_of_mem _ hr'))]

theorem vint_nat_injective : Function.Injective (fun k : Nat => VInt k) := by
  intro a b hab
  simp only [VInt.injEq] at hab
  exact_mod_cast hab

theorem mIdsFrom_lb (p : Nat) (sizes : List Nat) :
    ∀ x ∈ mIdsFrom p sizes, p * 2 ^ 33 ≤ x := by
  induction sizes generalizing p with
  | nil => intro x hx; cases hx
  | cons sz rest ih =>
    intro x hx
    rcases List.mem_append.mp hx with h1 | h2
    · obtain ⟨i, _, he⟩ := List.mem_map.mp h1
      exact he ▸ Nat.le_add_right _ i
    · calc p * 2 ^ 33 ≤ (p + 1) * 2 ^ 33 := Nat.mul_le_mul_right _ (Nat.le_succ p)
        _ ≤ x := ih (p + 1) x h2

theorem mIdsFrom_sorted (p : Nat) (sizes : List Nat) (h : ∀ sz ∈ sizes, sz ≤ 2 ^ 33) :
    List.Sorted (· < ·) (mIdsFrom p sizes) := by
  induction sizes generalizing p with
  | nil => exact List.sorted_nil
  | cons sz rest ih =>
    show List.Sorted _ ((List.range sz).map _ ++ mIdsFrom (p + 1) rest)
    rw [List.Sorted, List.pairwise_append]
    refine ⟨?_, ih (p + 1) (fun s hs => h s (List.mem_cons_of_mem _ hs)), ?_⟩
    · apply List.Pairwise.map _ ?_ (List.pairwise_lt_range sz)
      intro a b hab
      exact Nat.add_lt_add_left hab _
    · intro x hx y hy
      obtain ⟨i, hi, he⟩ := List.mem_map.mp hx
      have hy' := mIdsFrom_lb (p + 1) rest y hy
      have hisz : i < sz := List.mem_range.mp hi
      have hsz : sz ≤ 2 ^ 33 := h sz (List.mem_cons_self sz rest)
      calc x = p * 2 ^ 33 + i := he.symm
        _ < p * 2 ^ 33 + 2 ^ 33 := Nat.add_lt_add_left (Nat.lt_of_lt_of_le hisz hsz) _
        _ = (p + 1) * 2 ^ 33 := (Nat.succ_mul p (2 ^ 33)).symm
        _ ≤ y := hy'

/-! ### Decimal rendering and the coercing join comparison -/

theorem digitChar_facts : ∀ d < 10,
    (('0' ≤ Nat.digitChar d ∧ Nat.digitChar d ≤ '9') ∧ (Nat.digitChar d).toNat - 48 = d) := by
  decide

theorem parseNatAux_cons (c : Char) (l : List Char) (acc : Nat) :
    parseNatAux (c :: l) acc =
      if '0' ≤ c ∧ c ≤ '9' then parseNatAux l (acc * 10 + (c.toNat - 48)) else none := rfl

theorem parseNatAux_append (l1 l2 : List Char) (acc : Nat) :
    parseNatAux (l1 ++ l2) acc =
      (match parseNatAux l1 acc with
       | some m => parseNatAux l2 m
       | none => none) := by
  induction l1 generalizing acc with
  | nil => rfl
  | cons c l1 ih =>
    rw [List.cons_append, parseNatAux_cons, parseNatAux_cons]
    by_cases hc : '0' ≤ c ∧ c ≤ '9'
    · rw [if_pos hc, if_pos hc, ih]
    · rw [if_neg hc, if_neg hc]

theorem parseNatAux_singleton (c : Char) (acc : Nat) (h : '0' ≤ c ∧ c ≤ '9') :
    parseNatAux [c] acc = some (acc * 10 + (c.toNat - 48)) := by
  unfold parseNatAux
  rw [if_pos h]
  rfl

theorem natToDecAux_digits : ∀ (fuel n : Nat), ∀ c ∈ natToDecAux fuel n,
    '0' ≤ c ∧ c ≤ '9' := by
  intro fuel
  induction fuel with
  | zero => intro n c hc; cases hc
  | succ fuel ih =>
    intro n c hc
    unfold natToDecAux at hc
    by_cases hn : n < 10
    · rw [if_pos hn] at hc
      rw [List.mem_singleton] at hc
      exact hc ▸ (digitChar_facts n hn).1
    · rw [if_neg hn] at hc
      rcases List.mem_append.mp hc with h1 | h2
      · exact ih (n / 10) c h1
      · rw [List.mem_singleton] at h2
        exact h2 ▸ (digitChar_facts (n % 10) (Nat.mod_lt n (by norm_num))).1

theorem natToDecChars_ne_nil (n : Nat) : natToDecChars n ≠ [] := by
  unfold natToDecChars natToDecAux
  by_cases hn : n < 10
  · rw [if_pos hn]
    exact List.cons_ne_nil _ _
  · rw [if_neg hn]
    simp

theorem parseNatAux_natToDecAux : ∀ (fuel n acc : Nat), n < 10 ^ fuel →
    ∃ k, parseNatAux (natToDecAux fuel n) acc = some (acc * 10 ^ k + n) := by
  intro fuel
  induction fuel with
  | zero =>
    intro n acc h
    have hn : n = 0 := Nat.lt_one_iff.mp h
    exact ⟨0, by simp [natToDecAux, parseNatAux, hn]⟩
  | succ fuel ih =>
    intro n acc h
    unfold natToDecAux
    by_cases hn : n < 10
    · refine ⟨1, ?_⟩
      rw [if_pos hn, parseNatAux_singleton _ _ (digitChar_facts n hn).1,
        (digitChar_facts n hn).2]
      norm_num
    · rw [if_neg hn]
      have hdiv : n / 10 < 10 ^ fuel := by
        rw [Nat.div_lt_iff_lt_mul (by norm_num)]
        rw [pow_succ] at h
        exact h
      obtain ⟨k, hk⟩ := ih (n / 10) acc hdiv
      refine ⟨k + 1, ?_⟩
      rw [parseNatAux_append, hk]
      show parseNatAux [Nat.digitChar (n % 10)] (acc * 10 ^ k + n / 10) =
        some (acc * 10 ^ (k + 1) + n)
      rw [parseNatAux_singleton _ _ (digitChar_facts (n % 10) (Nat.mod_lt n (by norm_num))).1,
        (digitChar_facts (n % 10) (Nat.mod_lt n (by norm_num))).2]
      have hmod : n / 10 * 10 + n % 10 = n := by
        rw [Nat.mul_comm]
        exact Nat.div_add_mod n 10
      have h2 : (acc * 10 ^ k + n / 10) * 10 + n % 10 =
          acc * 10 ^ (k + 1) + (n / 10 * 10 + n % 10) := by ring
      rw [h2, hmod]

theorem parseNat_natToDecChars (n : Nat) : parseNatAux (natToDecChars n) 0 = some n := by
  have hb : n < 10 ^ (n + 1) :=
    Nat.lt_of_lt_of_le (Nat.lt_pow_self (by norm_num) n)
      (Nat.pow_le_pow_right (by norm_num) (Nat.le_succ n))
  obtain ⟨k, hk⟩ := parseNatAux_natToDecAux (n + 1) n 0 hb
  unfold natToDecChars
  rw [hk]
  simp

theorem parseIntStr_intToDecStr (m : Int) : parseIntStr (intToDecStr m) = some m := by
  unfold intToDecStr
  by_cases hm : m < 0
  · rw [if_pos hm]
    cases hcs : natToDecChars m.natAbs with
    | nil => exact absurd hcs (natToDecChars_ne_nil _)
    | cons c cs =>
      show (parseNatAux (c :: cs) 0).map (fun n => -(Int.ofNat n)) = some m
      rw [← hcs, parseNat_natToDecChars]
      show some (-(Int.ofNat m.natAbs)) = some m
      congr 1
      rw [Int.ofNat_eq_natCast]
      omega
  · rw [if_neg hm]
    push_neg at hm
    cases hcs : natToDecChars m.natAbs with
    | nil => exact absurd hcs (natToDecChars_ne_nil _)
    | cons c cs =>
      have hcd : '0' ≤ c ∧ c ≤ '9' := by
        apply natToDecAux_digits (m.natAbs + 1) m.natAbs
        rw [show natToDecAux (m.natAbs + 1) m.natAbs = natToDecChars m.natAbs from rfl, hcs]
        exact List.mem_cons_self c cs
      have hcne : c ≠ '-' := by
        intro he
        subst he
        exact absurd hcd (by decide)
      show parseIntStr (String.mk (c :: cs)) = some m
      unfold parseIntStr
      split
      · rename_i heq
        cases heq
      · rename_i heq
        exact absurd (List.head_eq_of_cons_eq heq) hcne
      · rename_i heq
        exact absurd (List.head_eq_of_cons_eq heq) hcne
      · show (parseNatAux (String.mk (c :: cs)).data 0).map (fun n => Int.ofNat n) = some m
        show (parseNatAux (c :: cs) 0).map (fun n => Int.ofNat n) = some m
        rw [← hcs, parseNat_natToDecChars]
        show some (Int.ofNat m.natAbs) = some m
        congr 1
        rw [Int.ofNat_eq_natCast]
        omega

theorem valJoinEqCoerce_null_right (a : Value) : valJoinEqCoerce a VNull = false := by
  cases a <;> rfl

theorem intToDecStr_injective {m n : Int} (h : intToDecStr m = intToDecStr n) : m = n := by
  have h1 := parseIntStr_intToDecStr m
  rw [h, parseIntStr_intToDecStr n] at h1
  injection h1 with h2
  exact h2.symm

/-- The Spark comparison between a raw value and the cast image of a value
of the same column type equals the comparison between the two cast images:
the implicit coercion re-applies exactly the declared cast to the raw side. -/
theorem valJoinEqCoerce_cast (t : String) (ht : t = "integer" ∨ t = "string")
    (a x : Value) (h : sameColTypeB a x = true) :
    valJoinEqCoerce a (castVal t x) = valJoinEqCoerce (castVal t a) (castVal t x) := by
  rcases ht with rfl | rfl
  · cases a with
    | VNull => rw [show castVal "integer" VNull = VNull from rfl]
    | VInt m =>
      cases x with
      | VNull =>
        rw [show castVal "integer" VNull = VNull from rfl, valJoinEqCoerce_null_right,
          valJoinEqCoerce_null_right]
      | VInt n => rfl
      | VStr u => exact absurd h (by simp [sameColTypeB])
    | VStr s =>
      cases x with
      | VNull =>
        rw [show castVal "integer" VNull = VNull from rfl, valJoinEqCoerce_null_right,
          valJoinEqCoerce_null_right]
      | VInt n => exact absurd h (by simp [sameColTypeB])
      | VStr u =>
        show valJoinEqCoerce (VStr s) (castVal "integer" (VStr u)) =
          valJoinEqCoerce (castVal "integer" (VStr s)) (castVal "integer" (VStr u))
        rw [show castVal "integer" (VStr u) =
          (match parseIntStr u with | some n => VInt n | none => VNull) from rfl]
        rw [show castVal "integer" (VStr s) =
          (match parseIntStr s with | some n => VInt n | none => VNull) from rfl]
        cases hpu : parseIntStr u with
        | none => rw [valJoinEqCoerce_null_right, valJoinEqCoerce_null_right]
        | some k =>
          cases hps : parseIntStr s with
          | none =>
            show (match parseIntStr s with | some n => n == k | none => false) = false
            rw [hps]
          | some n =>
            show (match parseIntStr s with | some n => n == k | none => false) = (n == k)
            rw [hps]
  · cases a with
    | VNull => rw [show castVal "string" VNull = VNull from rfl]
    | VStr s =>
      cases x with
      | VNull =>
        rw [show castVal "string" VNull = VNull from rfl, valJoinEqCoerce_null_right,
          valJoinEqCoerce_null_right]
      | VStr u => rfl
      | VInt n => exact absurd h (by simp [sameColTypeB])
    | VInt m =>
      cases x with
      | VNull =>
        rw [show castVal "string" VNull = VNull from rfl, valJoinEqCoerce_null_right,
          valJoinEqCoerce_null_right]
      | VStr u => exact absurd h (by simp [sameColTypeB])
      | VInt n =>
        show valJoinEqCoerce (VInt m) (VStr (intToDecStr n)) =
          valJoinEqCoerce (VStr (intToDecStr m)) (VStr (intToDecStr n))
        show (match parseIntStr (intToDecStr n) with | some j => m == j | none => false) =
          (intToDecStr m == intToDecStr n)
        rw [parseIntStr_intToDecStr]
        show (m == n) = (intToDecStr m == intToDecStr n)
        by_cases hmn : m = n
        · subst hmn
          simp
        · have hsne : intToDecStr m ≠ intToDecStr n := fun he => hmn (intToDecStr_injective he)
          have h1 : (m == n) = false := by simp [hmn]
          have h2 : (intToDecStr m == intToDecStr n) = false := by simp [hsne]
          rw [h1, h2]

theorem lookupV_castRow (flds : List DimField)
    (hnd : (flds.map (fun fl => fl.field)).Nodup) (r : Row) (fl : DimField)
    (hfl : fl ∈ flds) :
    lookupV (castRow flds r) fl.field = castVal fl.type (lookupV r fl.field) := by
  induction flds with
  | nil => cases hfl
  | cons fl0 rest ih =>
    rw [List.map_cons, List.nodup_cons] at hnd
    rcases List.mem_cons.mp hfl with he | hm
    · subst he
      show lookupV ((fl.field, castVal fl.type (lookupV r fl.field)) :: castRow rest r)
        fl.field = _
      rw [lookupV_cons_eq]
    · have hne : fl0.field ≠ fl.field := fun he =>
        hnd.1 (he ▸ List.mem_map_of_mem (fun fl => fl.field) hm)
      show lookupV ((fl0.field, castVal fl0.type (lookupV r fl0.field)) :: castRow rest r)
        fl.field = _
      rw [lookupV_cons_ne _ _ _ _ hne]
      exact ih hnd.2 hm

theorem lookupV_dimRead_field (df : List Row) (spec : String × List DimField)
    (hw : wfSpec spec) (dr : Row) (hdr : dr ∈ dimRead df spec) (fl : DimField)
    (hfl : fl ∈ spec.2) :
    ∃ y ∈ df, lookupV dr fl.field = castVal fl.type (lookupV y fl.field) := by
  obtain ⟨i, cr, hcr, he⟩ := mem_dimRead df spec hw.2 dr hdr
  obtain ⟨y, hy, hcy⟩ := List.mem_map.mp (List.mem_dedup.mp hcr)
  refine ⟨y, hy, ?_⟩
  have hfmem : fl.field ∈ cr.map Prod.fst := by
    rw [dedupCast_keys df spec.2 cr hcr]
    exact List.mem_map_of_mem (fun fl => fl.field) hfl
  rw [he, lookupV_append_left _ _ _ hfmem, ← hcy, lookupV_castRow spec.2 hw.1 y fl hfl]

theorem field_mem_source_cols (spec : String × List DimField)
    (hmem : spec ∈ DIMENSION_TABLES_CONFIG) (fl : DimField) (hfl : fl ∈ spec.2) :
    fl.field ∈ SOURCE_COLS := by
  unfold SOURCE_COLS
  apply List.mem_append_left
  rw [List.mem_flatMap]
  refine ⟨(spec.1, fieldNames spec), ?_, ?_⟩
  · exact List.mem_map_of_mem (fun e => (e.1, fieldNames e)) hmem
  · exact List.mem_map_of_mem (fun fl => fl.field) hfl

theorem registry_types_ok : ∀ spec ∈ DIMENSION_TABLES_CONFIG, ∀ fl ∈ spec.2,
    fl.type = "integer" ∨ fl.type = "string" := by decide

theorem fk_mem_all_columns (spec : String × List DimField)
    (h : spec ∈ DIMENSION_TABLES_CONFIG) :
    fkName spec ∈ FACT_TABLE_ALL_COLUMNS_ORDERED := by
  unfold FACT_TABLE_ALL_COLUMNS_ORDERED DIMENSION_ID_CONFIG
  apply List.mem_append_right
  rw [List.map_map]
  exact List.mem_map_of_mem _ h

/-! ### Claim theorems -/

/-- C1: for every input dataset (including the empty one), the key-resolution
loop — one left outer join per dimension in registry order against the
dimension tables materialized from that same dataset — produces exactly as
many resolved rows as the input dataset, and the loader writes exactly as
many rows; no row is dropped even when a row matches nothing. -/
theorem resolve_preserves_row_count (df : List Row) :
    (resolveAll df).length = df.length ∧ (writtenFacts df).length = df.length := by
  have h1 : (factsData0 df).length = df.length := List.length_map df _
  constructor
  · rw [resolveAll_eq_map, List.length_map, h1]
  · rw [writtenFacts_eq_map, List.length_map, h1]

/-- C2: for every dimension spec of the registry, the materialized dimension
table has no two rows that agree on all declared fields (projections onto the
declared fields are pairwise distinct; null cells compare equal as values). -/
theorem dimension_dedup_invariant (df : List Row) :
    ∀ spec ∈ DIMENSION_TABLES_CONFIG,
      ((materializeRows df spec).map (projVals (fieldNames spec))).Nodup := by
  intro spec h
  exact nodup_proj_materializeRows df spec (registry_ok.2.2.2.2.2 spec h)

/-- C2 witness at the sample dataset and the `DIM_LOCAL` spec. -/
theorem dimension_dedup_invariant_witness :
    dimLocalSpec ∈ DIMENSION_TABLES_CONFIG ∧
    ((materializeRows exDfA dimLocalSpec).map (projVals (fieldNames dimLocalSpec))).Nodup :=
  ⟨by decide, dimension_dedup_invariant exDfA dimLocalSpec (by decide)⟩

/-- C3: a fact row whose natural-key values join-match no row of some
dimension's materialized table resolves with a null FK for that dimension
(no error), and the row is still present — at its position — in the rows the
loader writes to the fact table. -/
theorem unmatched_key_yields_null_fk (df : List Row) (spec : String × List DimField)
    (hmem : spec ∈ DIMENSION_TABLES_CONFIG) (i : Nat) (r0 : Row)
    (hget : (factsData0 df).get? i = some r0)
    (hnom : joinMatches (dimRead df spec) (fieldNames spec) r0 = []) :
    ∃ r', (writtenFacts df).get? i = some r' ∧ lookupV r' (fkName spec) = VNull := by
  have hkeys := keys_factsData0 df r0 (List.get?_mem hget)
  refine ⟨selectRow FACT_TABLE_ALL_COLUMNS_ORDERED (rowFold DIMENSION_TABLES_CONFIG df r0),
    ?_, ?_⟩
  · rw [writtenFacts_eq_map, List.get?_map, hget]
    rfl
  · rw [lookupV_selectRow _ _ _ (fk_mem_all_columns spec hmem),
      rowFold_fk_char df spec hmem r0 hkeys, hnom]
    rfl

/-- C3 witness: the sample row's `TP_DEPENDENCIA` is null; null joins with
nothing, so the dimension lookup genuinely finds no match, the FK is null,
and the row is still written. -/
theorem unmatched_key_yields_null_fk_witness :
    (tpDepSpec ∈ DIMENSION_TABLES_CONFIG ∧
     (factsData0 exDfC).get? 0 = some ((factsData0 exDfC).headI) ∧
     joinMatches (dimRead exDfC tpDepSpec) (fieldNames tpDepSpec)
       ((factsData0 exDfC).headI) = []) ∧
    ∃ r', (writtenFacts exDfC).get? 0 = some r' ∧ lookupV r' (fkName tpDepSpec) = VNull :=
  ⟨⟨by decide, by decide, by decide⟩,
   unmatched_key_yields_null_fk exDfC tpDepSpec (by decide) 0 ((factsData0 exDfC).headI)
     (by decide) (by decide)⟩

/-- C4: the loader's output column order is exactly the order declared by the
fact schema builder: every measure column first, in `FACT_COLUMNS` order,
then one `ID_`-prefixed FK column per dimension in registry order; the
declared CREATE TABLE columns are the same list after the serial `id`. -/
theorem loaded_column_order (df : List Row) (r : Row) (h : r ∈ writtenFacts df) :
    r.map Prod.fst = FACT_TABLE_ALL_COLUMNS_ORDERED ∧
    FACT_TABLE_ALL_COLUMNS_ORDERED =
      FACT_COLUMNS ++ DIMENSION_TABLES_CONFIG.map fkName ∧
    factsCreateColumnDefs.map Prod.fst = "id" :: FACT_TABLE_ALL_COLUMNS_ORDERED := by
  refine ⟨?_, by decide, by decide⟩
  rw [writtenFacts_eq_map] at h
  obtain ⟨r0, _, he⟩ := List.mem_map.mp h
  rw [← he, selectRow_keys]

/-- C4 witness at the sample dataset. -/
theorem loaded_column_order_witness :
    ((writtenFacts exDfA).headI ∈ writtenFacts exDfA) ∧
    ((writtenFacts exDfA).headI.map Prod.fst = FACT_TABLE_ALL_COLUMNS_ORDERED ∧
     FACT_TABLE_ALL_COLUMNS_ORDERED =
       FACT_COLUMNS ++ DIMENSION_TABLES_CONFIG.map fkName ∧
     factsCreateColumnDefs.map Prod.fst = "id" :: FACT_TABLE_ALL_COLUMNS_ORDERED) :=
  ⟨by decide, loaded_column_order exDfA _ (by decide)⟩

/-- C5 counterexample: starting from a store that holds every dimension table,
the first execution of the generated DDL succeeds, but executing the same
statement sequence a second time reports an error (the ADD CONSTRAINT clauses
are not guarded by IF NOT EXISTS), so the build is not idempotent as claimed. -/
theorem schema_build_not_idempotent_counterexample :
    (buildFactsSchema stDims).2 = none ∧
    (buildFactsSchema (buildFactsSchema stDims).1).2 ≠ none := by decide

/-- C5 amended: re-running the generated create-table plus add-constraint
sequence against an already-built schema leaves the schema unchanged (the
failed transaction is rolled back) but does error with a duplicate-constraint
failure; only the CREATE TABLE IF NOT EXISTS part is idempotent. -/
theorem schema_build_second_run (st st1 : DbState)
    (h : buildFactsSchema st = (st1, none)) :
    (buildFactsSchema st1).1 = st1 ∧ (buildFactsSchema st1).2 ≠ none := by
  have hok : runFactsDdl st = Except.ok st1 := by
    unfold buildFactsSchema at h
    cases hr : runFactsDdl st with
    | ok s =>
      rw [hr] at h
      have h' : (s, (none : Option DdlError)) = (st1, none) := h
      exact congrArg Except.ok (congrArg Prod.fst h')
    | error e =>
      rw [hr] at h
      simp at h
  have hmem : ∀ c ∈ factsAddConstraints, c.1 ∈ st1.constraints := by
    unfold runFactsDdl at hok
    exact runAddConstraints_ok_mem hok
  obtain ⟨cs0, hfc⟩ : ∃ cs0, factsAddConstraints =
      ("FACT_CENSO_ESCOLAR_DIM_LOCAL_fk", "DIM_LOCAL") :: cs0 :=
    ⟨factsAddConstraints.tail, by decide⟩
  have hc0 : "FACT_CENSO_ESCOLAR_DIM_LOCAL_fk" ∈ st1.constraints :=
    hmem _ (hfc ▸ List.mem_cons_self _ cs0)
  have hrun2 : runFactsDdl st1 =
      Except.error (DdlError.dupConstraint "FACT_CENSO_ESCOLAR_DIM_LOCAL_fk") := by
    unfold runFactsDdl runAddConstraints
    rw [hfc, List.foldlM_cons]
    have hfst : addFkConstraint (createTableIfNotExists st1 FACT_TABLE_NAME)
        ("FACT_CENSO_ESCOLAR_DIM_LOCAL_fk", "DIM_LOCAL") =
        Except.error (DdlError.dupConstraint "FACT_CENSO_ESCOLAR_DIM_LOCAL_fk") := by
      unfold addFkConstraint
      rw [if_pos]
      rw [createTable_constraints]
      exact List.elem_iff.mpr hc0
    rw [hfst]
    rfl
  constructor
  · unfold buildFactsSchema
    rw [hrun2]
  · unfold buildFactsSchema
    rw [hrun2]
    simp

/-- C5 witness: instantiating the amended theorem after a successful first
build from the all-dimensions store. -/
theorem schema_build_second_run_witness :
    buildFactsSchema stDims = ((buildFactsSchema stDims).1, none) ∧
    ((buildFactsSchema (buildFactsSchema stDims).1).1 = (buildFactsSchema stDims).1 ∧
     (buildFactsSchema (buildFactsSchema stDims).1).2 ≠ none) :=
  ⟨by decide, schema_build_second_run stDims (buildFactsSchema stDims).1 (by decide)⟩

/-- C6 counterexample: on a name collision (hand-written `DIM_X` versus the
spec synthesized from flag column `X`), the registry merge does not fail at
all — `dict.update` silently replaces the hand-written spec with the
synthesized single-field spec, and the hand-written entry is gone. -/
theorem registry_collision_counterexample :
    dictUpdate [("DIM_X", specX2)] [synthDim "X"] =
      [("DIM_X", [⟨"X", "integer"⟩])] ∧
    ("DIM_X", specX2) ∉ dictUpdate [("DIM_X", specX2)] [synthDim "X"] := by decide

/-- C6 amended: building the registry never fails; when a synthesized name
collides with a hand-written name the synthesized spec silently replaces the
hand-written one; registry names stay pairwise distinct whenever the base
names are, and the actual merged registry's names are pairwise distinct. -/
theorem registry_merge_silent_replace (base upd : List (String × List DimField))
    (h : (base.map Prod.fst).Nodup) :
    ((dictUpdate base upd).map Prod.fst).Nodup ∧
    (DIMENSION_TABLES_CONFIG.map Prod.fst).Nodup ∧
    ∀ (k : String) (v1 v2 : List DimField), dictUpdate [(k, v1)] [(k, v2)] = [(k, v2)] := by
  refine ⟨dictUpdate_keys_nodup base upd h, by decide, ?_⟩
  intro k v1 v2
  unfold dictUpdate
  show insertOrReplace [(k, v1)] (k, v2) = [(k, v2)]
  unfold insertOrReplace
  simp

/-- C6 witness at the notebook's hand-written base and one synthesized entry. -/
theorem registry_merge_silent_replace_witness :
    (handWrittenConfig.map Prod.fst).Nodup ∧
    (((dictUpdate handWrittenConfig [synthDim "X"]).map Prod.fst).Nodup ∧
     (DIMENSION_TABLES_CONFIG.map Prod.fst).Nodup ∧
     ∀ (k : String) (v1 v2 : List DimField), dictUpdate [(k, v1)] [(k, v2)] = [(k, v2)]) :=
  ⟨by decide, registry_merge_silent_replace handWrittenConfig [synthDim "X"] (by decide)⟩

/-- C7: under Spark's comparison semantics — the analyzer's implicit type
coercion casts the string side of a mixed string/integer comparison to the
integer side's type — the key-resolution join compares the fact side's
natural-key columns under the same cast representation that materialization
applied: for every dimension of the registry and every row of a dataset
whose natural-key columns are uniformly typed (as Spark columns are), the
raw fact row join-matches exactly the dimension rows that its cast image
join-matches, so no false non-match arises from the type mismatch between
the raw fact side and the cast dimension side. -/
theorem resolution_join_cast_representation (df : List Row)
    (spec : String × List DimField) (hmem : spec ∈ DIMENSION_TABLES_CONFIG)
    (huni : ∀ fl ∈ spec.2, uniformColumn df fl.field)
    (raw : Row) (hraw : raw ∈ df) :
    joinMatchesCoerce (dimRead df spec) (fieldNames spec) (selectRow SOURCE_COLS raw) =
      joinMatchesCoerce (dimRead df spec) (fieldNames spec) (castRow spec.2 raw) := by
  unfold joinMatchesCoerce
  apply List.filter_congr
  intro dr hdr
  have hw := registry_ok.2.2.2.2.2 spec hmem
  have hpt : ∀ f ∈ fieldNames spec,
      valJoinEqCoerce (lookupV (selectRow SOURCE_COLS raw) f) (lookupV dr f) =
        valJoinEqCoerce (lookupV (castRow spec.2 raw) f) (lookupV dr f) := by
    intro f hf
    unfold fieldNames at hf
    obtain ⟨fl, hfl, hffl⟩ := List.mem_map.mp hf
    subst hffl
    rw [lookupV_selectRow _ _ _ (field_mem_source_cols spec hmem fl hfl),
      lookupV_castRow spec.2 hw.1 raw fl hfl]
    obtain ⟨y, hy, hdry⟩ := lookupV_dimRead_field df spec hw dr hdr fl hfl
    rw [hdry]
    exact valJoinEqCoerce_cast fl.type (registry_types_ok spec hmem fl hfl) _ _
      (huni fl hfl raw hraw y hy)
  rw [Bool.eq_iff_iff, List.all_eq_true, List.all_eq_true]
  constructor <;> intro ha f hf
  · rw [← hpt f hf]
    exact ha f hf
  · rw [hpt f hf]
    exact ha f hf

/-- C7 witness: at the sample row whose `TP_DEPENDENCIA` arrives as the
string `"01"`, the coercing join matches the dimension row holding the cast
integer `1` exactly as the cast image does — no false non-match. -/
theorem resolution_join_cast_representation_witness :
    (tpDepSpec ∈ DIMENSION_TABLES_CONFIG ∧
     (∀ fl ∈ tpDepSpec.2, uniformColumn exDfB fl.field) ∧ exRowB ∈ exDfB) ∧
    joinMatchesCoerce (dimRead exDfB tpDepSpec) (fieldNames tpDepSpec)
        (selectRow SOURCE_COLS exRowB) =
      joinMatchesCoerce (dimRead exDfB tpDepSpec) (fieldNames tpDepSpec)
        (castRow tpDepSpec.2 exRowB) :=
  ⟨⟨by decide, by decide, by decide⟩,
   resolution_join_cast_representation exDfB tpDepSpec (by decide) (by decide) exRowB
     (by decide)⟩

/-- C8: the fact schema build is atomic and names the failing constraint:
whenever executing the generated DDL reports an error, the committed store
state is exactly the input state (rollback), and the reported error carries
the name of one of the planned FK constraints. -/
theorem schema_build_atomic (st st1 : DbState) (e : DdlError)
    (h : buildFactsSchema st = (st1, some e)) :
    st1 = st ∧ e.cname ∈ factsAddConstraints.map Prod.fst := by
  unfold buildFactsSchema at h
  cases hr : runFactsDdl st with
  | ok s =>
    rw [hr] at h
    simp at h
  | error e0 =>
    rw [hr] at h
    have h1 : st = st1 := congrArg Prod.fst h
    have h2 : e0 = e := by
      have := congrArg Prod.snd h
      simpa using this
    refine ⟨h1.symm, ?_⟩
    rw [← h2]
    unfold runFactsDdl at hr
    exact runAddConstraints_error_mem hr

/-- C8 witness: building against an empty store fails on the first constraint
(missing `DIM_LOCAL` table); nothing is committed and the failing constraint
is named. -/
theorem schema_build_atomic_witness :
    buildFactsSchema stEmpty =
      (stEmpty, some (DdlError.missingTable "FACT_CENSO_ESCOLAR_DIM_LOCAL_fk" "DIM_LOCAL")) ∧
    (stEmpty = stEmpty ∧
     (DdlError.missingTable "FACT_CENSO_ESCOLAR_DIM_LOCAL_fk" "DIM_LOCAL").cname ∈
       factsAddConstraints.map Prod.fst) :=
  ⟨by decide, schema_build_atomic stEmpty stEmpty _ (by decide)⟩

/-- C9: surrogate keys are pairwise distinct: `monotonically_increasing_id`
assigns pairwise-distinct ids for any partition sizes within Spark's
2^33-records-per-partition bound, and every materialized dimension table of
the registry has pairwise-distinct `id` values. -/
theorem surrogate_keys_unique :
    (∀ sizes : List Nat, (∀ sz ∈ sizes, sz ≤ 2 ^ 33) →
      (monotonicallyIncreasingIds sizes).Nodup) ∧
    (∀ df : List Row, ∀ spec ∈ DIMENSION_TABLES_CONFIG,
      ((materializeRows df spec).map (fun r => lookupV r "id")).Nodup) := by
  constructor
  · intro sizes hsz
    have hs := mIdsFrom_sorted 0 sizes hsz
    exact hs.imp (fun hab => Nat.ne_of_lt hab)
  · intro df spec hmem
    have hw := registry_ok.2.2.2.2.2 spec hmem
    unfold materializeRows
    rw [ids_withIds 0 _ (fun r hr => by
      rw [dedupCast_keys df spec.2 r hr]
      exact hw.2)]
    exact (List.nodup_range' 0 _).map vint_nat_injective

/-- C9 witness: two partitions of sizes 2 and 3, and the `TP_DEPENDENCIA`
dimension materialized from the sample dataset. -/
theorem surrogate_keys_unique_witness :
    ((∀ sz ∈ [2, 3], sz ≤ 2 ^ 33) ∧ tpDepSpec ∈ DIMENSION_TABLES_CONFIG) ∧
    (monotonicallyIncreasingIds [2, 3]).Nodup ∧
    ((materializeRows exDfB tpDepSpec).map (fun r => lookupV r "id")).Nodup :=
  ⟨⟨by decide, by decide⟩,
   surrogate_keys_unique.1 [2, 3] (by decide),
   surrogate_keys_unique.2 exDfB tpDepSpec (by decide)⟩

/-- C10: under the registry's pairwise-disjoint natural-key columns, after
the first `k` iterations of the key-resolution loop the running fact
dataset's column set is exactly: the measure columns, one FK column per
processed dimension, and the natural-key columns of every remaining
dimension — each iteration adds exactly its FK column and drops exactly its
own natural-key columns. -/
theorem resolution_column_invariant (df : List Row) (k : Nat) (hk : k < 13) (r : Row)
    (h : r ∈ resolveSteps (DIMENSION_TABLES_CONFIG.take k) df (factsData0 df)) :
    (r.map Prod.fst).Perm
      (FACT_COLUMNS ++ (DIMENSION_TABLES_CONFIG.take k).map fkName ++
        (DIMENSION_TABLES_CONFIG.drop k).flatMap fieldNames) := by
  have hn : ∀ spec ∈ DIMENSION_TABLES_CONFIG.take k,
      ((dimRead df spec).map (projVals (fieldNames spec))).Nodup :=
    fun spec hs => nodup_proj_config df spec (List.take_subset k _ hs)
  rw [resolveSteps_eq_map _ _ _ hn] at h
  obtain ⟨r0, hr0, he⟩ := List.mem_map.mp h
  have hkeys : r.map Prod.fst = colsFold (DIMENSION_TABLES_CONFIG.take k) SOURCE_COLS := by
    rw [← he, keys_rowFold, keys_factsData0 df r0 hr0]
  rw [hkeys]
  have hperm : ∀ k' < 13, (colsFold (DIMENSION_TABLES_CONFIG.take k') SOURCE_COLS).Perm
      (FACT_COLUMNS ++ (DIMENSION_TABLES_CONFIG.take k').map fkName ++
        (DIMENSION_TABLES_CONFIG.drop k').flatMap fieldNames) := by decide
  exact hperm k hk

/-- C10 witness after two loop iterations on the sample dataset. -/
theorem resolution_column_invariant_witness :
    (2 < 13 ∧
     (resolveSteps (DIMENSION_TABLES_CONFIG.take 2) exDfA (factsData0 exDfA)).headI ∈
       resolveSteps (DIMENSION_TABLES_CONFIG.take 2) exDfA (factsData0 exDfA)) ∧
    (((resolveSteps (DIMENSION_TABLES_CONFIG.take 2) exDfA (factsData0 exDfA)).headI.map
        Prod.fst).Perm
      (FACT_COLUMNS ++ (DIMENSION_TABLES_CONFIG.take 2).map fkName ++
        (DIMENSION_TABLES_CONFIG.drop 2).flatMap fieldNames)) :=
  ⟨⟨by decide, by decide⟩,
   resolution_column_invariant exDfA 2 (by decide) _ (by decide)⟩

end StarSchema
